import Mathlib

/-!
# Verification of the IntersectionTrafficFlow layout engine

Shallow embedding of `IntersectionTrafficFlow/core.py`.  Directions are
strings, configured compass angles are integers (the Python type hint is
`Dict[str, int]`), flow values and style widths are rationals (Python
numbers flow through true division; the floating-point representation is
abstracted to exact rational arithmetic).  A Python `dict` is embedded as
an association list in insertion order; a raised exception is embedded as
`Option`/`Except` `none`/`error`.  The external drawing surface
(matplotlib) is out of scope per the spec; the matplotlib colormap
registry is abstracted as a pair of predicates.
-/

/-- An OD matrix entry: (origin label, destination label, flow value). -/
abbrev ODEntry := String × String × ℚ

/-- An OD matrix: list of (origin, destination, value) triples. -/
abbrev OD := List ODEntry

/-- A direction map: labels with configured compass angles, in insertion
order (embeds the `custom_directions` dict `Dict[str, int]`). -/
abbrev DirMap := List (String × Int)

/-- Append a key to an accumulator if not already present.  Embeds one
iteration of the `OrderedDict` filling loops of `get_unique_directions`
(insertion keeps first-seen order, as a Python dict does). -/
def insertUnique (l : List String) (s : String) : List String :=
  if s ∈ l then l else l ++ [s]

/-- `get_unique_directions` (core.py 372-379): distinct labels appearing
in the matrix, first-seen order, all origins before new destinations. -/
def get_unique_directions (od : OD) : List String :=
  ((od.map (·.1)) ++ (od.map (·.2.1))).foldl insertUnique []

/-- The value the completed defaultdict of `sort_od_matrix`
(core.py 386-391) holds at key `(o, d)`: initialised to `0` for every
pair of referenced directions, then overwritten by each input entry in
order — so the last matching input entry wins. -/
def completedValue (od : OD) (o d : String) : ℚ :=
  od.foldl (fun acc e => if e.1 = o ∧ e.2.1 = d then e.2.2 else acc) 0

/-- `direction_index` lookup of `sort_od_matrix` (core.py 393): a
direction's position in `ordered_directions`. -/
def odIdx (ordered : List String) (s : String) : Nat :=
  ordered.indexOf s

/-- Flat encoding of the Python sort key tuple
`(direction_index[origin], direction_index[destination])`: since every
`indexOf` is at most `ordered.length`, the map
`(i, j) ↦ i * (length + 1) + j` is lexicographic-order preserving. -/
def odKey (ordered : List String) (e : ODEntry) : Nat :=
  odIdx ordered e.1 * (ordered.length + 1) + odIdx ordered e.2.1

/-- `sort_od_matrix` (core.py 381-394): complete the sparse matrix over
the referenced directions with default 0, overwrite with the input
entries (last write wins), and sort by
(origin index, destination index) in `ordered_directions`. -/
def sort_od_matrix (ordered : List String) (od : OD) : OD :=
  let dirs := get_unique_directions od
  let completed := dirs.flatMap (fun o => dirs.map (fun d => (o, d, completedValue od o d)))
  List.insertionSort (fun x y => odKey ordered x ≤ odKey ordered y) completed

/-- `calculate_min_max` (core.py 396-400); `min`/`max` of the values,
`none` embeds the `ValueError` Python raises on an empty list. -/
def calculate_min_max (od : OD) : Option (ℚ × ℚ) :=
  match od.map (·.2.2) with
  | [] => none
  | v :: vs => some (vs.foldl min v, vs.foldl max v)

/-- `get_linewidth` (core.py 406-408):
`min_edge_width + (value - min_value) * scale` with
`scale = (max_edge_width - min_edge_width) / (max_value - min_value)`;
`none` embeds the `ZeroDivisionError` when `max_value == min_value`. -/
def get_linewidth (min_edge_width max_edge_width value min_value max_value : ℚ) :
    Option ℚ :=
  if max_value - min_value = 0 then none
  else
    some (min_edge_width +
      (value - min_value) * ((max_edge_width - min_edge_width) / (max_value - min_value)))

/-- `get_cmap_color` (core.py 454-456) up to the colormap application:
the normalised position `(value - min)/(max - min)` handed to the edge
colormap; `none` embeds the `ZeroDivisionError` when `max == min`. -/
def get_cmap_color (value min_value max_value : ℚ) : Option ℚ :=
  if max_value - min_value = 0 then none
  else some ((value - min_value) / (max_value - min_value))

/-- `calculate_circular_distance` (core.py 418-433).
`driving_side_factor` is `1` for right-hand and `-1` for left-hand
traffic (core.py 110); Python raises if a label is absent, so results
are only meaningful when both labels occur in `directions`. -/
def calculate_circular_distance (driving_side_factor : Int)
    (directions : List String) (origin destination : String) : Nat :=
  let start_index := directions.indexOf origin
  let end_index := directions.indexOf destination
  if driving_side_factor = 1 then
    if end_index ≥ start_index then end_index - start_index
    else directions.length - start_index + end_index
  else
    if start_index ≥ end_index then start_index - end_index
    else directions.length - end_index + start_index

/-- `dict` update step used by `sum_values_by_origin_and_destination`
(core.py 440-448): add `v` to the entry of `k`, inserting it at the end
if absent (a Python dict holds each key once, so updating the first
occurrence is exact). -/
def updateAdd : List (String × ℚ) → String → ℚ → List (String × ℚ)
  | [], k, v => [(k, v)]
  | p :: rest, k, v =>
    if p.1 = k then (p.1, p.2 + v) :: rest else p :: updateAdd rest k v

/-- The per-key running-sum dict built by one of the two accumulation
loops of `sum_values_by_origin_and_destination`, from its (key, value)
stream. -/
def buildSums (l : List (String × ℚ)) : List (String × ℚ) :=
  l.foldl (fun acc p => updateAdd acc p.1 p.2) []

/-- `sum_values_by_origin_and_destination` (core.py 435-450): first
component keyed by origin ("outbound" per spec), second keyed by
destination ("inbound" per spec).  The single Python loop updates the
two dicts independently, so it equals two independent accumulations. -/
def sum_values_by_origin_and_destination (od : OD) :
    List (String × ℚ) × List (String × ℚ) :=
  (buildSums (od.map (fun e => (e.1, e.2.2))),
   buildSums (od.map (fun e => (e.2.1, e.2.2))))

/-- The number shown as `∑ out` in a node's summary text
(core.py 326): `destination_sums[key]`; `none` embeds a `KeyError`. -/
def shown_sum_out (od : OD) (key : String) : Option ℚ :=
  ((sum_values_by_origin_and_destination od).2).lookup key

/-- The number shown as `∑ in` in a node's summary text
(core.py 327): `origin_sums[key]`; `none` embeds a `KeyError`. -/
def shown_sum_in (od : OD) (key : String) : Option ℚ :=
  ((sum_values_by_origin_and_destination od).1).lookup key

/-- `calculate_cartesian_angles` (core.py 131-132):
`(450 - angle) % 360` per direction (Python `%` on ints is `Int.emod`:
result in `[0, 360)`). -/
def calculate_cartesian_angles (m : DirMap) : List (String × Int) :=
  m.map (fun p => (p.1, (450 - p.2) % 360))

/-- The direction map sorted ascending by configured compass angle —
the `sorted(items, key=item[1])` inside `order_directions`
(core.py 140-141); Python `sorted` and insertion sort are both stable,
and agree on any total preorder. -/
def sorted_items (m : DirMap) : DirMap :=
  List.insertionSort (fun p q => p.2 ≤ q.2) m

/-- `order_directions` (core.py 140-141): labels sorted ascending by
configured compass angle. -/
def order_directions (m : DirMap) : List String :=
  (sorted_items m).map (·.1)

/-- Abstraction of the matplotlib palette registry consulted by
`generate_colors`: whether a name is a continuous colormap
(`plt.get_cmap` succeeds) and whether it is a named flat color
(`CSS4_COLORS`/`BASE_COLORS`). -/
structure ColorRegistry where
  isContinuousCmap : String → Bool
  isNamedColor : String → Bool

/-- A color value assigned to a direction: either a sample position fed
to a continuous colormap, or a flat named color. -/
inductive ColorValue where
  | sampled (pos : ℚ)
  | flat (name : String)
deriving DecidableEq

/-- The colormap-sampling dict comprehension of `generate_colors`
(core.py 124): `enumerate(self.directions)` pairs each label, in the
direction map's insertion order, with `cmap(i / len(directions))`. -/
def sampleAssign (n : Nat) : Nat → List String → List (String × ColorValue)
  | _, [] => []
  | i, d :: rest => (d, ColorValue.sampled ((i : ℚ) / (n : ℚ))) :: sampleAssign n (i + 1) rest

/-- `generate_colors` (core.py 121-129): try the name as a continuous
colormap and sample it at `i / len(directions)` over the keys of
`self.directions` (insertion order of the configured map); on failure
fall back to a flat named color for every direction; otherwise raise
`ValueError`.  `keys` is the direction map's key list. -/
def generate_colors (reg : ColorRegistry) (cmap_name : String) (keys : List String) :
    Except String (List (String × ColorValue)) :=
  if reg.isContinuousCmap cmap_name then
    Except.ok (sampleAssign keys.length 0 keys)
  else if reg.isNamedColor cmap_name then
    Except.ok (keys.map (fun d => (d, ColorValue.flat cmap_name)))
  else
    Except.error "not in Matplotlibs cmap or colors"

/-- The claim's reading of `generate_colors` (C5, spec §4.1 item 4),
stated from the spec's words for comparison: the sampling index follows
`ordered_directions` rather than the configured map's insertion
order. -/
def generate_colors_claim (reg : ColorRegistry) (cmap_name : String)
    (keys ordered : List String) : Except String (List (String × ColorValue)) :=
  if reg.isContinuousCmap cmap_name then
    Except.ok (keys.map (fun d => (d, ColorValue.sampled ((odIdx ordered d : ℚ) / (keys.length : ℚ)))))
  else if reg.isNamedColor cmap_name then
    Except.ok (keys.map (fun d => (d, ColorValue.flat cmap_name)))
  else
    Except.error "not in Matplotlibs cmap or colors"

/-- Python `int()` applied to a rational: truncation toward zero. -/
def pyInt (q : ℚ) : Int :=
  if 0 ≤ q then ⌊q⌋ else ⌈q⌉

/-- `customize_plot` (core.py 458-461): the x- and y-axis limit pairs it
sets, `lim = int(radius * 1.5)`, limits `[-lim, lim]` on both axes. -/
def customize_plot_limits (radius : ℚ) : (Int × Int) × (Int × Int) :=
  let lim := pyInt (radius * (3 / 2))
  ((-lim, lim), (-lim, lim))

/-- The per-edge `get_linewidth` calls of the `plot_edges` loop
(core.py 182, 209), in matrix order; the first division by zero aborts
the whole call (`none`). -/
def mapLinewidths (min_edge_width max_edge_width mn mx : ℚ) : OD → Option (List ℚ)
  | [] => some []
  | e :: rest =>
    match get_linewidth min_edge_width max_edge_width e.2.2 mn mx with
    | none => none
    | some w =>
      match mapLinewidths min_edge_width max_edge_width mn mx rest with
      | none => none
      | some ws => some (w :: ws)

/-- The linewidth computations issued by a `plot` call (core.py 163-167
then 176-209): sort the matrix, take min/max of the completed values,
and compute every edge's width; `none` embeds the call raising. -/
def plot_linewidths (min_edge_width max_edge_width : ℚ) (ordered : List String)
    (od : OD) : Option (List ℚ) :=
  let sorted := sort_od_matrix ordered od
  match calculate_min_max sorted with
  | none => none
  | some (mn, mx) => mapLinewidths min_edge_width max_edge_width mn mx sorted

/-- The total of a per-direction sums dict: the sum of its values over
all of its keys (each direction occurs once as a key). -/
def totalOf (m : List (String × ℚ)) : ℚ :=
  (m.map (·.2)).sum

/-! ## Theorems -/

/-- Adding `v` under key `k` grows the dict total by `v`. -/
theorem totalOf_updateAdd (m : List (String × ℚ)) (k : String) (v : ℚ) :
    totalOf (updateAdd m k v) = totalOf m + v := by
  induction m with
  | nil => simp [updateAdd, totalOf]
  | cons p rest ih =>
    by_cases h : p.1 = k
    · simp [updateAdd, h, totalOf]
      ring
    · simp only [updateAdd, if_neg h, totalOf, List.map_cons, List.sum_cons]
      simp only [totalOf] at ih
      rw [ih]
      ring

/-- The accumulated dict total equals the total of the value stream. -/
theorem totalOf_buildSums_aux (l : List (String × ℚ)) :
    ∀ acc : List (String × ℚ),
      totalOf (l.foldl (fun acc p => updateAdd acc p.1 p.2) acc) =
        totalOf acc + (l.map (·.2)).sum := by
  induction l with
  | nil => intro acc; simp
  | cons p rest ih =>
    intro acc
    simp only [List.foldl_cons, List.map_cons, List.sum_cons]
    rw [ih, totalOf_updateAdd]
    ring

theorem totalOf_buildSums (l : List (String × ℚ)) :
    totalOf (buildSums l) = (l.map (·.2)).sum := by
  simpa [buildSums, totalOf] using totalOf_buildSums_aux l []

/-- C3: for an observed range `minValue < maxValue` and configured widths
`min_edge_width ≤ max_edge_width`, `get_linewidth` maps `minValue` to
exactly `min_edge_width`, `maxValue` to exactly `max_edge_width`, and is
monotone non-decreasing in the value on `[minValue, maxValue]`. -/
theorem get_linewidth_linear_monotone (mw Mw mn mx v₁ v₂ : ℚ)
    (hr : mn < mx) (hw : mw ≤ Mw) :
    get_linewidth mw Mw mn mn mx = some mw ∧
    get_linewidth mw Mw mx mn mx = some Mw ∧
    (mn ≤ v₁ → v₁ ≤ v₂ → v₂ ≤ mx →
      ∀ w₁ w₂, get_linewidth mw Mw v₁ mn mx = some w₁ →
        get_linewidth mw Mw v₂ mn mx = some w₂ → w₁ ≤ w₂) := by
  have hne : mx - mn ≠ 0 := sub_ne_zero.mpr hr.ne'
  have hpos : 0 < mx - mn := sub_pos.mpr hr
  refine ⟨?_, ?_, ?_⟩
  · simp [get_linewidth, hne]
  · simp only [get_linewidth, hne, if_neg hne]
    rw [mul_div_assoc']
    rw [mul_comm, mul_div_assoc, div_self hne, mul_one]
    simp [add_sub_cancel]
  · intro _ h12 _ w₁ w₂ h₁ h₂
    simp only [get_linewidth, if_neg hne, Option.some.injEq] at h₁ h₂
    subst h₁; subst h₂
    have hs : 0 ≤ (Mw - mw) / (mx - mn) :=
      div_nonneg (sub_nonneg.mpr hw) hpos.le
    exact add_le_add_left
      (mul_le_mul_of_nonneg_right (sub_le_sub_right h12 mn) hs) mw

/-- Witness for C3 at a concrete range. -/
theorem get_linewidth_linear_monotone_witness :
    get_linewidth 1 15 0 0 100 = some 1 ∧ get_linewidth 1 15 100 0 100 = some 15 :=
  ⟨(get_linewidth_linear_monotone 1 15 0 100 10 20 (by norm_num) (by norm_num)).1,
   (get_linewidth_linear_monotone 1 15 0 100 10 20 (by norm_num) (by norm_num)).2.1⟩

/-- C2 (code bug): on an OD matrix in which all values are equal, the
width and color normalisation of `plot` divides by `max - min = 0`
(embedded: returns `none`), instead of the fallback the spec requires;
stated for every degenerate range and evaluated at the concrete failing
input of a complete matrix with all values 100. -/
theorem plot_linewidths_all_equal_none :
    (∀ mw Mw value v : ℚ, get_linewidth mw Mw value v v = none ∧
      get_cmap_color value v v = none) ∧
    plot_linewidths 1 15 ["N", "E"]
      [("N", "N", (100 : ℚ)), ("N", "E", (100 : ℚ)),
       ("E", "N", (100 : ℚ)), ("E", "E", (100 : ℚ))] = none := by
  constructor
  · intro mw Mw value v
    constructor <;> simp [get_linewidth, get_cmap_color]
  · have h1 : sort_od_matrix ["N", "E"]
        [("N", "N", (100 : ℚ)), ("N", "E", (100 : ℚ)),
         ("E", "N", (100 : ℚ)), ("E", "E", (100 : ℚ))] =
        [("N", "N", 100), ("N", "E", 100), ("E", "N", 100), ("E", "E", 100)] := by
      decide
    have h2 : calculate_min_max
        [("N", "N", (100 : ℚ)), ("N", "E", (100 : ℚ)),
         ("E", "N", (100 : ℚ)), ("E", "E", (100 : ℚ))] = some (100, 100) := by
      decide
    simp [plot_linewidths, h1, h2, mapLinewidths, get_linewidth]

/-- C4: for a fixed ring ordering, the circular distance from `A` to `B`
under right-hand traffic (`driving_side_factor = 1`) equals the circular
distance from `B` to `A` under left-hand traffic
(`driving_side_factor = -1`). -/
theorem circular_distance_flip_symm (l : List String) (A B : String)
    (_hA : A ∈ l) (_hB : B ∈ l) :
    calculate_circular_distance 1 l A B = calculate_circular_distance (-1) l B A := by
  simp [calculate_circular_distance]

/-- Witness for C4 on the ring `["N", "E", "S"]`. -/
theorem circular_distance_flip_symm_witness :
    calculate_circular_distance 1 ["N", "E", "S"] "N" "S" =
      calculate_circular_distance (-1) ["N", "E", "S"] "S" "N" :=
  circular_distance_flip_symm ["N", "E", "S"] "N" "S" (by decide) (by decide)

/-- C6: for a direction map with at least one entry,
`order_directions` has as many entries as the map and lists it sorted
ascending by the configured compass angle, and every direction's
cartesian angle is `(450 - compass) % 360`, which lies in `[0, 360)`. -/
theorem order_directions_sorted_cartesian_range (m : DirMap) (_hm : 1 ≤ m.length) :
    (order_directions m).length = m.length ∧
    (sorted_items m).Pairwise (fun p q => p.2 ≤ q.2) ∧
    ∀ p ∈ m, (p.1, (450 - p.2) % 360) ∈ calculate_cartesian_angles m ∧
      0 ≤ (450 - p.2) % 360 ∧ (450 - p.2) % 360 < 360 := by
  refine ⟨?_, ?_, ?_⟩
  · simp only [order_directions, List.length_map, sorted_items]
    exact List.length_insertionSort _ m
  · haveI : IsTotal (String × Int) (fun p q => p.2 ≤ q.2) :=
      ⟨fun a b => Int.le_total a.2 b.2⟩
    haveI : IsTrans (String × Int) (fun p q => p.2 ≤ q.2) :=
      ⟨fun _ _ _ hab hbc => le_trans hab hbc⟩
    exact List.sorted_insertionSort _ m
  · intro p hp
    refine ⟨?_, Int.emod_nonneg _ (by norm_num), Int.emod_lt_of_pos _ (by norm_num)⟩
    exact List.mem_map_of_mem (fun q => (q.1, (450 - q.2) % 360)) hp

/-- Witness for C6 on the single-direction map. -/
theorem order_directions_sorted_cartesian_range_witness :
    (order_directions [("N", (0 : Int))]).length = [("N", (0 : Int))].length :=
  (order_directions_sorted_cartesian_range [("N", 0)] (by decide)).1

/-- C7 counterexample: over the length-1 ring the circular distance from
`N` to itself is `0`, not `1` as the claim states (the `+1` is applied
only to the lane-offset term inside `plot_edges`). -/
theorem circular_distance_self_loop_counterexample :
    ¬ (calculate_circular_distance 1 ["N"] "N" "N" = 1) := by decide

/-- C7 amended: with the single-direction map and OD matrix
`[(N, N, 10)]`, the circular distance `N → N` is `0` (the lane-offset
term `circular_distance + 1` used by `plot_edges` is `1`), and `plot`
does not render the self-loop: its width normalisation sees
`min = max = 10` and divides by zero (embedded: returns `none`). -/
theorem self_loop_scenario_amended :
    sort_od_matrix (order_directions [("N", 0)]) [("N", "N", (10 : ℚ))] =
      [("N", "N", 10)] ∧
    get_unique_directions [("N", "N", (10 : ℚ))] = ["N"] ∧
    calculate_circular_distance 1 ["N"] "N" "N" = 0 ∧
    calculate_circular_distance 1 ["N"] "N" "N" + 1 = 1 ∧
    calculate_min_max [("N", "N", (10 : ℚ))] = some (10, 10) ∧
    plot_linewidths 1 15 (order_directions [("N", 0)]) [("N", "N", (10 : ℚ))] = none := by
  have h1 : sort_od_matrix (order_directions [("N", 0)]) [("N", "N", (10 : ℚ))] =
      [("N", "N", 10)] := by decide
  refine ⟨h1, by decide, by decide, by decide, by decide, ?_⟩
  have h2 : calculate_min_max [("N", "N", (10 : ℚ))] = some (10, 10) := by decide
  simp [plot_linewidths, h1, h2, mapLinewidths, get_linewidth]

/-- C9 counterexample: with `radius = 7`, `customize_plot` sets the
upper x-limit to `int(10.5) = 10`, not `1.5 · radius = 10.5`. -/
theorem axis_limits_counterexample :
    ¬ ((((customize_plot_limits 7).1.2 : Int) : ℚ) = (3 / 2) * 7) := by
  have h : (7 : ℚ) * (3 / 2) = 21 / 2 := by norm_num
  have hfl : ⌊(21 / 2 : ℚ)⌋ = 10 := by
    rw [Int.floor_eq_iff] <;> norm_num
  simp only [customize_plot_limits, pyInt, h, hfl]
  norm_num

/-- C9 amended: after any plot call the axis limits form a fixed square
`[-lim, lim]` on both axes with `lim = int(1.5 · radius)` —
`1.5 · radius` truncated toward zero (for non-negative radius, its
floor) — which equals `1.5 · radius` exactly when that is an integer. -/
theorem axis_limits_amended (radius : ℚ) (hr : 0 ≤ radius) :
    (customize_plot_limits radius).1 = (customize_plot_limits radius).2 ∧
    (customize_plot_limits radius).1.1 = -(customize_plot_limits radius).1.2 ∧
    (((customize_plot_limits radius).1.2 : Int) : ℚ) ≤ radius * (3 / 2) ∧
    radius * (3 / 2) < (((customize_plot_limits radius).1.2 : Int) : ℚ) + 1 ∧
    ∀ n : ℤ, radius * (3 / 2) = (n : ℚ) → (customize_plot_limits radius).1.2 = n := by
  have h0 : 0 ≤ radius * (3 / 2) := by positivity
  have hpy : pyInt (radius * (3 / 2)) = ⌊radius * (3 / 2)⌋ := by
    simp [pyInt, h0]
  refine ⟨rfl, rfl, ?_, ?_, ?_⟩
  · simp only [customize_plot_limits, hpy]
    exact Int.floor_le _
  · simp only [customize_plot_limits, hpy]
    exact Int.lt_floor_add_one _
  · intro n hn
    simp only [customize_plot_limits, hn, pyInt]
    split <;> simp

/-- Witness for C9 at `radius = 10`, where `1.5 · radius = 15` is an
integer and the limit is exact. -/
theorem axis_limits_amended_witness :
    (customize_plot_limits 10).1.2 = 15 :=
  (axis_limits_amended 10 (by norm_num)).2.2.2.2 15 (by norm_num)

/-- C10: summed over all directions, the per-direction origin sums and
the per-direction destination sums returned by
`sum_values_by_origin_and_destination` both equal the total of all
values in the matrix: outbound flow is conserved as inbound flow. -/
theorem flow_conservation (od : OD) :
    totalOf (sum_values_by_origin_and_destination od).1 = (od.map (·.2.2)).sum ∧
    totalOf (sum_values_by_origin_and_destination od).2 = (od.map (·.2.2)).sum := by
  constructor <;>
    simp [sum_values_by_origin_and_destination, totalOf_buildSums,
      Function.comp_def]

/-- Looking up the updated key reads the old value (default 0) plus `v`. -/
theorem lookup_updateAdd_self (m : List (String × ℚ)) (k : String) (v : ℚ) :
    (updateAdd m k v).lookup k = some ((m.lookup k).getD 0 + v) := by
  induction m with
  | nil => simp [updateAdd, List.lookup]
  | cons p rest ih =>
    by_cases h : p.1 = k
    · simp [updateAdd, h, List.lookup]
    · have hne : (k == p.1) = false := by
        simp [beq_eq_false_iff_ne]
        exact fun hk => h hk.symm
      simp [updateAdd, h, List.lookup, hne, ih]

/-- Looking up a different key is unaffected by the update. -/
theorem lookup_updateAdd_ne (m : List (String × ℚ)) (k k' : String) (v : ℚ)
    (h : k' ≠ k) : (updateAdd m k v).lookup k' = m.lookup k' := by
  have hkk : (k' == k) = false := beq_eq_false_iff_ne.mpr h
  induction m with
  | nil => simp [updateAdd, List.lookup, hkk]
  | cons p rest ih =>
    by_cases hp : p.1 = k
    · simp [updateAdd, hp, List.lookup, hkk]
    · by_cases hq : k' = p.1
      · simp [updateAdd, hp, List.lookup, hq]
      · have hne : (k' == p.1) = false := beq_eq_false_iff_ne.mpr hq
        simp [updateAdd, hp, List.lookup, hne, ih]

/-- The dict built from a (key, value) stream holds, at each key of the
stream, the sum of the stream's values under that key (and no entry at
keys outside the stream). -/
theorem lookup_buildSums (l : List (String × ℚ)) (k : String) :
    (buildSums l).lookup k =
      if k ∈ l.map (·.1)
        then some (((l.filter (fun p => p.1 == k)).map (·.2)).sum)
        else none := by
  induction l using List.reverseRecOn with
  | nil => simp [buildSums, List.lookup]
  | append_singleton rest p ih =>
    have hstep : buildSums (rest ++ [p]) = updateAdd (buildSums rest) p.1 p.2 := by
      simp [buildSums, List.foldl_append]
    by_cases h : k = p.1
    · subst h
      rw [hstep, lookup_updateAdd_self, ih]
      by_cases hm : p.1 ∈ rest.map (·.1)
      · simp [hm, List.filter_append, beq_iff_eq]
      · have hfil : rest.filter (fun q => q.1 == p.1) = [] := by
          rw [List.filter_eq_nil_iff]
          intro q hq hqk
          exact hm (List.mem_map.mpr ⟨q, hq, by simpa using hqk⟩)
        simp [hm, List.filter_append, beq_iff_eq, hfil]
    · have hne : p.1 ≠ k := fun hk => h hk.symm
      rw [hstep, lookup_updateAdd_ne _ _ _ _ h, ih]
      by_cases hm : k ∈ rest.map (·.1) <;>
        simp [hm, h, hne, List.filter_append, beq_iff_eq]

/-- C8 counterexample: on the completed matrix of the input
`[(N, E, 5)]` over directions `{N, E}`, the node `N`'s summary shows
`∑ out: 0` — the destination (inbound) sum — although the sum of values
with origin `N` is `5`; the claim's reading of the annotation is false
here. -/
theorem shown_sums_swapped_counterexample :
    ¬ (shown_sum_out
        [("N", "N", (0 : ℚ)), ("N", "E", (5 : ℚ)), ("E", "N", (0 : ℚ)), ("E", "E", (0 : ℚ))] "N" =
      some ((([("N", "N", (0 : ℚ)), ("N", "E", (5 : ℚ)), ("E", "N", (0 : ℚ)), ("E", "E", (0 : ℚ))].filter
          (fun e => e.1 == "N")).map (·.2.2)).sum)) := by
  have e1 : (("N" : String) == "N") = true := by decide
  have e2 : (("E" : String) == "N") = false := by decide
  have hshown : shown_sum_out
      [("N", "N", (0 : ℚ)), ("N", "E", (5 : ℚ)), ("E", "N", (0 : ℚ)), ("E", "E", (0 : ℚ))] "N" =
      some 0 := by
    norm_num [shown_sum_out, sum_values_by_origin_and_destination,
      buildSums, updateAdd, List.lookup]
  have hfil : (([("N", "N", (0 : ℚ)), ("N", "E", (5 : ℚ)), ("E", "N", (0 : ℚ)),
        ("E", "E", (0 : ℚ))].filter (fun e => e.1 == "N")).map (·.2.2)).sum = 5 := by
    norm_num [List.filter_cons, e1, e2]
  rw [hshown, hfil]
  simp

/-- C8 amended: in the summary annotation the two labels are attached
the other way round from the claim: the value shown as `∑ out` for a
direction is the sum of all matrix values whose *destination* is that
direction, and the value shown as `∑ in` is the sum of all values whose
*origin* is that direction. -/
theorem shown_sums_amended (od : OD) (key : String) :
    (key ∈ od.map (fun e => e.2.1) →
      shown_sum_out od key =
        some (((od.filter (fun e => e.2.1 == key)).map (·.2.2)).sum)) ∧
    (key ∈ od.map (fun e => e.1) →
      shown_sum_in od key =
        some (((od.filter (fun e => e.1 == key)).map (·.2.2)).sum)) := by
  constructor
  · intro hmem
    have hm : key ∈ (od.map (fun e => (e.2.1, e.2.2))).map (·.1) := by
      simpa [Function.comp_def] using hmem
    rw [shown_sum_out, sum_values_by_origin_and_destination, lookup_buildSums,
      if_pos hm, List.filter_map, List.map_map]
    simp [Function.comp_def]
  · intro hmem
    have hm : key ∈ (od.map (fun e => (e.1, e.2.2))).map (·.1) := by
      simpa [Function.comp_def] using hmem
    rw [shown_sum_in, sum_values_by_origin_and_destination, lookup_buildSums,
      if_pos hm, List.filter_map, List.map_map]
    simp [Function.comp_def]

/-- Witness for C8 (amended) on the input `[(N, E, 5)]`. -/
theorem shown_sums_amended_witness :
    shown_sum_out [("N", "E", (5 : ℚ))] "E" = some 5 ∧
    shown_sum_in [("N", "E", (5 : ℚ))] "N" = some 5 := by
  constructor
  · have h := (shown_sums_amended [("N", "E", (5 : ℚ))] "E").1 (by decide)
    simpa using h
  · have h := (shown_sums_amended [("N", "E", (5 : ℚ))] "N").2 (by decide)
    simpa using h

/-- Looking up the `i`-th key of a duplicate-free key list in the
enumerate-sampled dict yields the sample at `(start + i) / n`. -/
theorem lookup_sampleAssign (n : Nat) (keys : List String) (hnd : keys.Nodup) :
    ∀ (j i : Nat) (hi : i < keys.length),
      (sampleAssign n j keys).lookup (keys.get ⟨i, hi⟩) =
        some (ColorValue.sampled (((j + i : Nat) : ℚ) / (n : ℚ))) := by
  induction keys with
  | nil => intro j i hi; simp at hi
  | cons d rest ih =>
    intro j i hi
    cases i with
    | zero => simp [sampleAssign, List.lookup]
    | succ i =>
      have hd : d ∉ rest := (List.nodup_cons.mp hnd).1
      have hi' : i < rest.length := by simpa using Nat.lt_of_succ_lt_succ hi
      have hmem : rest.get ⟨i, hi'⟩ ∈ rest := rest.get_mem _ _
      have hne : (rest.get ⟨i, hi'⟩ == d) = false :=
        beq_eq_false_iff_ne.mpr (fun h => hd (h ▸ hmem))
      simp only [sampleAssign, List.get_cons_succ, List.lookup, hne]
      rw [ih (List.nodup_cons.mp hnd).2 (j + 1) i hi']
      have : j + 1 + i = j + (i + 1) := by omega
      rw [this]

/-- Every key of a key list maps to the flat color in the fallback
branch's dict. -/
theorem lookup_flat_colors (keys : List String) (name : String) :
    ∀ d ∈ keys,
      (keys.map (fun d => (d, ColorValue.flat name))).lookup d =
        some (ColorValue.flat name) := by
  induction keys with
  | nil => intro d hd; simp at hd
  | cons k rest ih =>
    intro d hd
    by_cases h : d = k
    · simp [List.lookup, h]
    · have hne : (d == k) = false := beq_eq_false_iff_ne.mpr h
      have hd' : d ∈ rest := by
        rcases List.mem_cons.mp hd with h' | h'
        · exact absurd h' h
        · exact h'
      simp [List.lookup, hne, ih d hd']

/-- C5 counterexample: with the two-direction map `{A: 90, B: 0}` (so
`ordered_directions = [B, A]` differs from the map's insertion order
`[A, B]`) and a name resolving to a continuous colormap,
`generate_colors` does not sample at the index a direction holds in
`ordered_directions`: the code samples `A` at `0/2` and `B` at `1/2`,
insertion order. -/
theorem generate_colors_order_counterexample :
    generate_colors ⟨fun _ => true, fun _ => false⟩ "Set2" ["A", "B"] ≠
      generate_colors_claim ⟨fun _ => true, fun _ => false⟩ "Set2" ["A", "B"]
        (order_directions [("A", 90), ("B", 0)]) := by
  intro h
  have hord : order_directions [("A", 90), ("B", 0)] = ["B", "A"] := by decide
  rw [hord] at h
  have h1 : odIdx ["B", "A"] "A" = 1 := by decide
  norm_num [generate_colors, generate_colors_claim, sampleAssign, h1] at h

/-- C5 amended: at construction, if the color scheme name resolves to a
continuous colormap, each direction receives the colormap sample at
`index / len(directions)` with the index following the *configured
direction map's insertion order* (the iteration order of
`self.directions`), not `ordered_directions`; a named flat color is
assigned to every direction; any other name fails with an
invalid-configuration error. -/
theorem generate_colors_amended (reg : ColorRegistry) (name : String)
    (keys : List String) (hnd : keys.Nodup) :
    (reg.isContinuousCmap name = true →
      ∃ r, generate_colors reg name keys = Except.ok r ∧
        ∀ i, ∀ hi : i < keys.length,
          r.lookup (keys.get ⟨i, hi⟩) =
            some (ColorValue.sampled ((i : ℚ) / (keys.length : ℚ)))) ∧
    (reg.isContinuousCmap name = false → reg.isNamedColor name = true →
      ∃ r, generate_colors reg name keys = Except.ok r ∧
        ∀ d ∈ keys, r.lookup d = some (ColorValue.flat name)) ∧
    (reg.isContinuousCmap name = false → reg.isNamedColor name = false →
      generate_colors reg name keys =
        Except.error "not in Matplotlibs cmap or colors") := by
  refine ⟨?_, ?_, ?_⟩
  · intro hc
    refine ⟨sampleAssign keys.length 0 keys, by simp [generate_colors, hc], ?_⟩
    intro i hi
    have := lookup_sampleAssign keys.length keys hnd 0 i hi
    simpa using this
  · intro hc hn
    refine ⟨keys.map (fun d => (d, ColorValue.flat name)),
      by simp [generate_colors, hc, hn], ?_⟩
    exact lookup_flat_colors keys name
  · intro hc hn
    simp [generate_colors, hc, hn]

/-- Witness for C5 (amended) on the map with keys `[A, B]`. -/
theorem generate_colors_amended_witness :
    ∃ r, generate_colors ⟨fun _ => true, fun _ => false⟩ "Set2" ["A", "B"] =
        Except.ok r ∧ r.lookup "B" = some (ColorValue.sampled ((1 : ℚ) / 2)) := by
  obtain ⟨r, hok, hlk⟩ :=
    (generate_colors_amended ⟨fun _ => true, fun _ => false⟩ "Set2" ["A", "B"]
      (by decide)).1 rfl
  refine ⟨r, hok, ?_⟩
  have := hlk 1 (by decide)
  simpa using this

/-- Membership after one `insertUnique` step. -/
theorem mem_insertUnique (l : List String) (s a : String) :
    a ∈ insertUnique l s ↔ a ∈ l ∨ a = s := by
  unfold insertUnique
  by_cases h : s ∈ l
  · simp only [if_pos h]
    constructor
    · exact Or.inl
    · rintro (h' | rfl)
      · exact h'
      · exact h
  · simp [if_neg h]

/-- `insertUnique` keeps the accumulator duplicate-free. -/
theorem nodup_insertUnique (l : List String) (s : String) (h : l.Nodup) :
    (insertUnique l s).Nodup := by
  unfold insertUnique
  by_cases hs : s ∈ l
  · simpa [if_pos hs] using h
  · simp [if_neg hs, List.nodup_append, h, hs]

/-- Membership in the folded unique-key accumulator. -/
theorem mem_foldl_insertUnique (xs : List String) :
    ∀ (acc : List String) (a : String),
      a ∈ xs.foldl insertUnique acc ↔ a ∈ acc ∨ a ∈ xs := by
  induction xs with
  | nil => intro acc a; simp
  | cons x rest ih =>
    intro acc a
    rw [List.foldl_cons, ih, mem_insertUnique]
    simp only [List.mem_cons]
    tauto

/-- The folded unique-key accumulator stays duplicate-free. -/
theorem nodup_foldl_insertUnique (xs : List String) :
    ∀ acc : List String, acc.Nodup → (xs.foldl insertUnique acc).Nodup := by
  induction xs with
  | nil => intro acc h; simpa using h
  | cons x rest ih => intro acc h; exact ih _ (nodup_insertUnique _ _ h)

/-- The referenced-direction list has no duplicates: its length is the
cardinality of the direction set `D` of the matrix. -/
theorem get_unique_directions_nodup (od : OD) :
    (get_unique_directions od).Nodup :=
  nodup_foldl_insertUnique _ [] List.nodup_nil

/-- The referenced-direction list holds exactly the labels occurring in
the matrix as an origin or as a destination. -/
theorem mem_get_unique_directions (od : OD) (a : String) :
    a ∈ get_unique_directions od ↔
      a ∈ od.map (·.1) ∨ a ∈ od.map (·.2.1) := by
  unfold get_unique_directions
  rw [mem_foldl_insertUnique]
  simp

/-- A fold of non-matching entries leaves the dict value unchanged. -/
theorem completed_foldl_no_match (o d : String) :
    ∀ (od : OD) (init : ℚ), (∀ e ∈ od, ¬(e.1 = o ∧ e.2.1 = d)) →
      od.foldl (fun acc e => if e.1 = o ∧ e.2.1 = d then e.2.2 else acc) init = init := by
  intro od
  induction od with
  | nil => intro init _; rfl
  | cons e rest ih =>
    intro init h
    rw [List.foldl_cons, if_neg (h e (List.mem_cons_self e rest))]
    exact ih init (fun e' he' => h e' (List.mem_cons_of_mem _ he'))

/-- A pair no input entry matches keeps the default value 0. -/
theorem completedValue_absent (od : OD) (o d : String)
    (h : ∀ e ∈ od, ¬(e.1 = o ∧ e.2.1 = d)) :
    completedValue od o d = 0 :=
  completed_foldl_no_match o d od 0 h

/-- The completed dict holds the value of the last matching input entry
(last write wins, not summed). -/
theorem completedValue_last (od₁ od₂ : OD) (e : ODEntry)
    (h : ∀ e' ∈ od₂, ¬(e'.1 = e.1 ∧ e'.2.1 = e.2.1)) :
    completedValue (od₁ ++ e :: od₂) e.1 e.2.1 = e.2.2 := by
  unfold completedValue
  rw [List.foldl_append, List.foldl_cons, if_pos ⟨rfl, rfl⟩]
  exact completed_foldl_no_match e.1 e.2.1 od₂ e.2.2 h

/-- Counting a fixed (origin, destination) pair in the full grid of
entries over `outer × inner`. -/
theorem countP_pair_grid (outer inner : List String) (v : String → String → ℚ)
    (o d : String) :
    (outer.flatMap (fun a => inner.map (fun b => (a, b, v a b)))).countP
      (fun e => e.1 == o && e.2.1 == d) = outer.count o * inner.count d := by
  induction outer with
  | nil => simp
  | cons a rest ih =>
    rw [List.flatMap_cons, List.countP_append, ih, List.countP_map,
      List.count_cons]
    by_cases h : a = o
    · subst h
      have hc : List.countP ((fun e : ODEntry => e.1 == a && e.2.1 == d) ∘
          fun b => (a, b, v a b)) inner = inner.count d := by
        apply List.countP_congr
        intro b _
        simp [List.count]
      rw [hc]
      simp only [beq_self_eq_true, if_true]
      ring
    · have hb : (a == o) = false := beq_eq_false_iff_ne.mpr h
      have hc : List.countP ((fun e : ODEntry => e.1 == o && e.2.1 == d) ∘
          fun b => (a, b, v a b)) inner = 0 := by
        apply List.countP_eq_zero.mpr
        intro b _
        simp [hb]
      rw [hc]
      simp [hb]

/-- The full grid over `outer × inner` has `|outer| · |inner|` entries. -/
theorem length_pair_grid (outer inner : List String) (v : String → String → ℚ) :
    (outer.flatMap (fun a => inner.map (fun b => (a, b, v a b)))).length =
      outer.length * inner.length := by
  induction outer with
  | nil => simp
  | cons a rest ih =>
    rw [List.flatMap_cons, List.length_append, List.length_map, ih,
      List.length_cons]
    ring

/-- The flat key encoding `(i, j) ↦ i * M + j` is lexicographic as long
as both second components are below `M`. -/
theorem flat_key_le_iff (M a₁ b₁ a₂ b₂ : Nat) (h₁ : b₁ < M) (h₂ : b₂ < M) :
    a₁ * M + b₁ ≤ a₂ * M + b₂ ↔ (a₁ < a₂ ∨ (a₁ = a₂ ∧ b₁ ≤ b₂)) := by
  constructor
  · intro h
    rcases Nat.lt_trichotomy a₁ a₂ with hlt | heq | hgt
    · exact Or.inl hlt
    · subst heq
      exact Or.inr ⟨rfl, by omega⟩
    · exfalso
      have hstep : (a₂ + 1) * M ≤ a₁ * M := mul_le_mul_right' hgt M
      have : a₂ * M + b₂ < a₁ * M + b₁ := by
        have hM : a₂ * M + M = (a₂ + 1) * M := by ring
        omega
      omega
  · rintro (hlt | ⟨heq, hle⟩)
    · have hstep : (a₁ + 1) * M ≤ a₂ * M := mul_le_mul_right' hlt M
      have hM : a₁ * M + M = (a₁ + 1) * M := by ring
      omega
    · subst heq
      omega

/-- The flat sort key of `sort_od_matrix` compares exactly like the
Python key tuple (origin index, destination index). -/
theorem odKey_le_iff (ordered : List String) (x y : ODEntry) :
    odKey ordered x ≤ odKey ordered y ↔
      (odIdx ordered x.1 < odIdx ordered y.1 ∨
        (odIdx ordered x.1 = odIdx ordered y.1 ∧
          odIdx ordered x.2.1 ≤ odIdx ordered y.2.1)) := by
  have hx : odIdx ordered x.2.1 < ordered.length + 1 :=
    Nat.lt_succ_of_le List.indexOf_le_length
  have hy : odIdx ordered y.2.1 < ordered.length + 1 :=
    Nat.lt_succ_of_le List.indexOf_le_length
  exact flat_key_le_iff (ordered.length + 1) _ _ _ _ hx hy

/-- The sorted matrix is pairwise ordered under the flat sort key. -/
theorem sort_od_matrix_sorted_key (ordered : List String) (od : OD) :
    (sort_od_matrix ordered od).Pairwise
      (fun x y => odKey ordered x ≤ odKey ordered y) := by
  unfold sort_od_matrix
  haveI : IsTotal ODEntry (fun x y => odKey ordered x ≤ odKey ordered y) :=
    ⟨fun a b => Nat.le_total _ _⟩
  haveI : IsTrans ODEntry (fun x y => odKey ordered x ≤ odKey ordered y) :=
    ⟨fun _ _ _ => Nat.le_trans⟩
  exact List.sorted_insertionSort _ _

/-- The sorted matrix is a permutation of the completed grid over the
referenced directions. -/
theorem sort_od_matrix_perm (ordered : List String) (od : OD) :
    (sort_od_matrix ordered od).Perm
      ((get_unique_directions od).flatMap (fun o =>
        (get_unique_directions od).map (fun d => (o, d, completedValue od o d)))) := by
  unfold sort_od_matrix
  exact List.perm_insertionSort _ _

/-- C1: for a sparse OD input whose labels all occur in the configured
direction map's ordering, with `D = get_unique_directions od` the
referenced-direction list (duplicate-free, holding exactly the labels
occurring as origin or destination), `sort_od_matrix` returns exactly
`|D|²` entries — exactly one per ordered pair of `D × D`, carrying the
completed value: 0 for a pair absent from the input, and for a supplied
pair the value of the last matching input entry (last write wins, not
summed) — sorted ascending by (origin index, destination index) in
`ordered_directions`. -/
theorem sort_od_matrix_complete_sorted (ordered : List String) (od : OD)
    (_hsub : ∀ e ∈ od, e.1 ∈ ordered ∧ e.2.1 ∈ ordered) :
    ((get_unique_directions od).Nodup ∧
      ∀ a, a ∈ get_unique_directions od ↔
        (a ∈ od.map (·.1) ∨ a ∈ od.map (·.2.1))) ∧
    (sort_od_matrix ordered od).length =
      (get_unique_directions od).length * (get_unique_directions od).length ∧
    (∀ o ∈ get_unique_directions od, ∀ d ∈ get_unique_directions od,
      (sort_od_matrix ordered od).countP (fun e => e.1 == o && e.2.1 == d) = 1 ∧
      (o, d, completedValue od o d) ∈ sort_od_matrix ordered od) ∧
    (∀ e ∈ sort_od_matrix ordered od,
      e.2.2 = completedValue od e.1 e.2.1 ∧
      e.1 ∈ get_unique_directions od ∧ e.2.1 ∈ get_unique_directions od) ∧
    (∀ o d, (∀ e ∈ od, ¬(e.1 = o ∧ e.2.1 = d)) → completedValue od o d = 0) ∧
    (∀ od₁ od₂ (e : ODEntry), od = od₁ ++ e :: od₂ →
      (∀ e' ∈ od₂, ¬(e'.1 = e.1 ∧ e'.2.1 = e.2.1)) →
      completedValue od e.1 e.2.1 = e.2.2) ∧
    (sort_od_matrix ordered od).Pairwise (fun x y =>
      odIdx ordered x.1 < odIdx ordered y.1 ∨
        (odIdx ordered x.1 = odIdx ordered y.1 ∧
          odIdx ordered x.2.1 ≤ odIdx ordered y.2.1)) := by
  have hperm := sort_od_matrix_perm ordered od
  have hnd := get_unique_directions_nodup od
  refine ⟨⟨hnd, mem_get_unique_directions od⟩, ?_, ?_, ?_, ?_, ?_, ?_⟩
  · rw [hperm.length_eq, length_pair_grid]
  · intro o ho d hd
    constructor
    · rw [hperm.countP_eq, countP_pair_grid,
        List.count_eq_one_of_mem hnd ho, List.count_eq_one_of_mem hnd hd]
    · rw [hperm.mem_iff]
      exact List.mem_flatMap.mpr ⟨o, ho, List.mem_map.mpr ⟨d, hd, rfl⟩⟩
  · intro e he
    rw [hperm.mem_iff] at he
    obtain ⟨o, ho, he⟩ := List.mem_flatMap.mp he
    obtain ⟨d, hd, rfl⟩ := List.mem_map.mp he
    exact ⟨rfl, ho, hd⟩
  · intro o d h
    exact completedValue_absent od o d h
  · intro od₁ od₂ e heq h
    rw [heq]
    exact completedValue_last od₁ od₂ e h
  · exact (sort_od_matrix_sorted_key ordered od).imp
      (fun h => (odKey_le_iff ordered _ _).mp h)

/-- Witness for C1 on the input `[(N, E, 5)]` over the map
`{N: 0, E: 90}`. -/
theorem sort_od_matrix_complete_sorted_witness :
    (sort_od_matrix ["N", "E"] [("N", "E", (5 : ℚ))]).length =
      (get_unique_directions [("N", "E", (5 : ℚ))]).length *
        (get_unique_directions [("N", "E", (5 : ℚ))]).length :=
  (sort_od_matrix_complete_sorted ["N", "E"] [("N", "E", (5 : ℚ))]
    (by decide)).2.1
